import Mathlib

/-!
Shallow embedding of the walrus write-ahead-log key-value store
(packages `wal` and `store`): the record codec, the frame layer and
scan loop of `readAllFromFile`/`ReadAll`, the buffered flush with
segment rotation, and the `Store` write-through layer.  Byte slices
are modelled as `List Nat` with each byte read normalised modulo 256;
machine `uint32` arithmetic is explicit modulo 4294967296.  Fallible
Go paths return sum types; a Go runtime panic from an out-of-bounds
slice is a dedicated constructor.
-/

/-- A byte read at index `i`, 0 past the end, normalised to a byte value. -/
def byteAt (l : List Nat) (i : Nat) : Nat := l.getD i 0 % 256

/-- `binary.BigEndian.Uint32` of the four bytes at `i`. -/
def u32At (l : List Nat) (i : Nat) : Nat :=
  byteAt l i * 16777216 + byteAt l (i + 1) * 65536 + byteAt l (i + 2) * 256 + byteAt l (i + 3)

/-- `binary.BigEndian.PutUint32`: the four big-endian bytes of `n` as a uint32. -/
def be32 (n : Nat) : List Nat :=
  [n / 16777216 % 256, n / 65536 % 256, n / 256 % 256, n % 256]

/-- One bit step of the reflected CRC-32 (IEEE polynomial 0xEDB88320). -/
def crcBit (c : Nat) : Nat :=
  if c % 2 = 1 then Nat.xor (c / 2) 0xEDB88320 else c / 2

/-- One byte step of CRC-32. -/
def crcByte (c : Nat) (b : Nat) : Nat := crcBit^[8] (Nat.xor c (b % 256))

/-- `crc32.ChecksumIEEE` over a byte sequence. -/
def crc32 (data : List Nat) : Nat :=
  Nat.xor (data.foldl crcByte 0xFFFFFFFF) 0xFFFFFFFF

/-- `wal.Record`: one logical mutation.  `op` is the raw op byte
(`OpSet` = 1, `OpDelete` = 2; Go's `OpType` is a byte and decode
stores whatever byte it reads). -/
structure Record where
  op : Nat
  key : List Nat
  value : List Nat
deriving DecidableEq

/-- Go `encodeRecord` (wal/record.go): `[op:1][keyLen:4][valLen:4][key][value]`,
lengths taken as `uint32(len(...))`, so reduced modulo 2^32; `copy` into the
exactly-sized buffer keeps only that many bytes of each slice. -/
def encodeRecord (r : Record) : List Nat :=
  [r.op % 256]
    ++ be32 (r.key.length % 4294967296)
    ++ be32 (r.value.length % 4294967296)
    ++ r.key.take (r.key.length % 4294967296)
    ++ r.value.take (r.value.length % 4294967296)

/-- Result of `decodeRecord`: a record, a returned error, or a Go runtime
panic from an out-of-bounds slice expression (`boom`). -/
inductive DecodeResult where
  | ok (r : Record)
  | err
  | boom
deriving DecidableEq

/-- Go `decodeRecord` (wal/record.go).  Faithful to the source, including its
two slips: the length check compares against `int(keyLen + valLen)`, a uint32
sum that wraps modulo 2^32, and after copying the key the code does
`offset = int(keyLen)` (not `offset += ...`), so the value bytes are taken
from `data[keyLen : keyLen+valLen]`.  The slice expression
`data[9 : 9+keyLen]` panics when its upper bound exceeds the slice length,
modelled by `boom`. -/
def decodeRecord (data : List Nat) : DecodeResult :=
  if data.length < 9 then .err
  else
    let op := byteAt data 0
    let keyLen := u32At data 1
    let valLen := u32At data 5
    if data.length - 9 ≠ (keyLen + valLen) % 4294967296 then .err
    else if data.length < 9 + keyLen then .boom
    else if data.length < keyLen + valLen then .boom
    else .ok ⟨op, (data.drop 9).take keyLen, (data.drop keyLen).take valLen⟩

/-- Modelled from the spec: the fixed 4-byte frame magic constant
(`recordMagic`).  Its defining declaration is not among the provided source
files, only its uses in `wal.go`; the spec fixes it as an arbitrary 4-byte
constant and the repository's test uses 0xDEADBEEF as a wrong magic.  No
claim below depends on the concrete value, only on equality with itself. -/
def recordMagic : Nat := 0x57414C52

/-- The frame built by `WAL.Append` around an encoded record:
`[magic:4][length:4][checksum:4][payload]`, `length = uint32(len(data))`. -/
def frameFor (data : List Nat) : List Nat :=
  be32 recordMagic ++ be32 (data.length % 4294967296) ++ be32 (crc32 data) ++ data

/-- Outcome of one iteration of the scan loop in `readAllFromFile` at a frame
start `off`: `eof` = the 4 magic bytes cannot be read (loop breaks with no
truncation), `bad` = any corruption that truncates to `off` and breaks,
`boom` = `decodeRecord` panicked, `ok r next` = a valid frame. -/
inductive FrameStep where
  | eof
  | bad
  | boom
  | ok (r : Record) (next : Nat)
deriving DecidableEq

/-- One iteration of the `readAllFromFile` loop (wal/wal.go): read magic,
length, checksum, payload; verify checksum; decode.  Every corrupt case in
the source truncates the file to exactly `off` (the arithmetic in the source
subtracts back whatever was added to `offset`), so they collapse to `bad`. -/
def parseFrame (file : List Nat) (off : Nat) : FrameStep :=
  if file.length < off + 4 then .eof
  else if u32At file off ≠ recordMagic then .bad
  else if file.length < off + 8 then .bad
  else if file.length < off + 12 then .bad
  else if file.length < off + 12 + u32At file (off + 4) then .bad
  else
    let data := (file.drop (off + 12)).take (u32At file (off + 4))
    if crc32 data ≠ u32At file (off + 8) then .bad
    else
      match decodeRecord data with
      | .ok r => .ok r (off + 12 + u32At file (off + 4))
      | .err => .bad
      | .boom => .boom

/-- Result of scanning one segment: the records read, the offset `stop` where
the loop stopped (always a frame boundary), whether `Truncate(stop)` was
called, or a decode panic. -/
inductive ScanOut where
  | done (recs : List Record) (stop : Nat) (trunc : Bool)
  | boom
deriving DecidableEq

/-- The `for` loop of `readAllFromFile`, with explicit fuel (the loop advances
by at least 12 bytes per iteration, so `file.length + 1` fuel always
suffices; the fuel-exhausted branch is unreachable then). -/
def scanLoop (file : List Nat) : Nat → Nat → ScanOut
  | 0, off => .done [] off false
  | fuel + 1, off =>
    match parseFrame file off with
    | .eof => .done [] off false
    | .bad => .done [] off true
    | .boom => .boom
    | .ok r next =>
      match scanLoop file fuel next with
      | .done recs stop trunc => .done (r :: recs) stop trunc
      | .boom => .boom

/-- Go `readAllFromFile` (wal/wal.go), as a pure function of the segment
bytes. -/
def readAllFromFile (file : List Nat) : ScanOut :=
  scanLoop file (file.length + 1) 0

/-- The segment content after `readAllFromFile` ran on it: `f.Truncate(stop)`
shortens the file to `stop` bytes; with no truncation the file is unchanged. -/
def fileAfterScan (file : List Nat) : List Nat :=
  match readAllFromFile file with
  | .done _ stop true => file.take stop
  | _ => file

/-- Result of `WAL.ReadAll`: the concatenated records, or a propagated decode
panic.  (Filesystem errors from `os.Open` have no counterpart in the
byte-level model.) -/
inductive ReadAllOut where
  | ok (recs : List Record)
  | boom
deriving DecidableEq

/-- Go `WAL.ReadAll` (wal/wal.go): scans every listed segment in order and
concatenates the per-file results; the loop over files has no early exit. -/
def readAll : List (List Nat) → ReadAllOut
  | [] => .ok []
  | f :: rest =>
    match readAllFromFile f with
    | .boom => .boom
    | .done recs _ _ =>
      match readAll rest with
      | .boom => .boom
      | .ok more => .ok (recs ++ more)

/-- WAL engine state (wal/wal.go): sealed segments in creation order, the
active segment's on-disk bytes, the in-memory append buffer, the configured
maximum segment size and the closed flag. -/
structure WalState where
  sealed : List (List Nat)
  active : List Nat
  buffer : List Nat
  maxSize : Nat
  closed : Bool

/-- Go `wal.Open`: fresh directory, segment 1 created empty, empty buffer. -/
def walOpen (maxSize : Nat) : WalState :=
  ⟨[], [], [], maxSize, false⟩

/-- Go `WAL.Append`: rejected with an error after close; otherwise the frame
bytes are appended to the in-memory buffer (no disk write). -/
def walAppend (w : WalState) (r : Record) : Except String WalState :=
  if w.closed then .error "wal is closed"
  else .ok { w with buffer := w.buffer ++ frameFor (encodeRecord r) }

/-- Go `WAL.flushOnce`: a no-op on an empty buffer; otherwise rotate first
when the pre-flush segment size plus the whole buffer exceeds `maxSize`
(`info.Size()+len(buffer) > maxSize`), then write the entire buffer to the
single active segment and clear it. -/
def flushOnce (w : WalState) : WalState :=
  if w.buffer = [] then w
  else if w.maxSize < w.active.length + w.buffer.length then
    { w with sealed := w.sealed ++ [w.active], active := w.buffer, buffer := [] }
  else
    { w with active := w.active ++ w.buffer, buffer := [] }

/-- The segment files `WAL.ReadAll` lists: sealed segments in creation order,
then the active one (zero-padded names sort in creation order). -/
def segmentsOf (w : WalState) : List (List Nat) :=
  w.sealed ++ [w.active]

/-- Append on an open handle, keeping the state on error (used to run a
concrete sequence of operations whose appends all succeed). -/
def appendOr (w : WalState) (r : Record) : WalState :=
  match walAppend w r with
  | .ok w' => w'
  | .error _ => w

/-- `store.Store` state: the in-memory map and the owned WAL handle. -/
structure StoreState where
  data : List Nat → Option (List Nat)
  wal : WalState

/-- Go `Store.Set` (store/store.go): append a Set record to the WAL first;
only when the append is accepted mutate the map.  On append failure the whole
state is returned unchanged together with the error. -/
def storeSet (s : StoreState) (key value : List Nat) : Option String × StoreState :=
  match walAppend s.wal ⟨1, key, value⟩ with
  | .error e => (some e, s)
  | .ok w' => (none, ⟨fun k => if k = key then some value else s.data k, w'⟩)

/-- Go `Store.Delete` (store/store.go): append a Delete record (empty value)
first, then remove the key unconditionally. -/
def storeDelete (s : StoreState) (key : List Nat) : Option String × StoreState :=
  match walAppend s.wal ⟨2, key, []⟩ with
  | .error e => (some e, s)
  | .ok w' => (none, ⟨fun k => if k = key then none else s.data k, w'⟩)

/-- The `switch rec.Op` body of `Store.Recover`: `OpSet` inserts, `OpDelete`
removes, any other op byte falls through the switch and does nothing. -/
def applyRecord (m : List Nat → Option (List Nat)) (r : Record) : List Nat → Option (List Nat) :=
  if r.op = 1 then fun k => if k = r.key then some r.value else m k
  else if r.op = 2 then fun k => if k = r.key then none else m k
  else m

/-- Go `Store.Recover` (store/store.go): `ReadAll`, then replay each record
into the map in order.  `none` models the Go runtime panic that a decode
out-of-bounds inside `ReadAll` would raise. -/
def storeRecover (s : StoreState) : Option StoreState :=
  match readAll (segmentsOf s.wal) with
  | .boom => none
  | .ok recs => some { s with data := recs.foldl applyRecord s.data }

/-- A logical Set/Delete operation, as issued through the Store API. -/
inductive KVOp where
  | set (key value : List Nat)
  | del (key : List Nat)
deriving DecidableEq

/-- The record `Store.Set` / `Store.Delete` builds for an operation. -/
def recordOf : KVOp → Record
  | .set k v => ⟨1, k, v⟩
  | .del k => ⟨2, k, []⟩

/-- Append the records of a sequence of operations to the WAL, in order. -/
def runOps (w : WalState) (ops : List KVOp) : WalState :=
  ops.foldl (fun w op => appendOr w (recordOf op)) w

/-- Open a WAL (10 MiB segment budget as in cmd/main.go), apply the
operations, then commit: `Store.Commit` — modelled from the spec as forcing
one WAL flush, its implementation not being among the provided sources. -/
def commitPipeline (ops : List KVOp) : WalState :=
  flushOnce (runOps (walOpen 10485760) ops)

/-- The map an empty Store holds after committing `ops` and replaying them
from disk via `Recover` (the all-`none` map when recovery panicked). -/
def recoveredMap (ops : List KVOp) : List Nat → Option (List Nat) :=
  match storeRecover ⟨fun _ => none, commitPipeline ops⟩ with
  | some s => s.data
  | none => fun _ => none

/-- The reference map semantics in the words of the spec's recovery-equivalence
property: applied directly in memory, the last `Set` per key wins and a
`Delete` removes the key regardless of prior state. -/
def directMap (ops : List KVOp) : List Nat → Option (List Nat) :=
  ops.foldl
    (fun m op =>
      match op with
      | .set key value => fun k => if k = key then some value else m k
      | .del key => fun k => if k = key then none else m k)
    (fun _ => none)

/-- `off' ` is reachable from `off` by consuming whole valid frames, collecting
their records: the bytes of `file` between `off` and `off'` consist exactly of
fully-valid frames. -/
inductive GoodChain (file : List Nat) : Nat → Nat → List Record → Prop where
  | refl (off : Nat) : GoodChain file off off []
  | step {off next stop : Nat} {r : Record} {recs : List Record} :
      parseFrame file off = .ok r next → GoodChain file next stop recs →
      GoodChain file off stop (r :: recs)

/-- No position in the file carries a big-endian uint32 pair, at the offsets
where a frame payload's `keyLen`/`valLen` fields would sit, whose true sum
wraps 32 bits.  Every payload's length fields are file bytes at such offsets,
so this rules out the decode panic for every frame the scan can reach. -/
def NoWrapFrames (f : List Nat) : Prop :=
  ∀ i, u32At f (i + 13) + u32At f (i + 17) < 4294967296

/-- Concrete WAL state for the rotation witness: a 2-byte active segment, a
3-byte pending buffer, a 4-byte segment budget (so the flush must rotate). -/
def w8 : WalState := ⟨[], [1, 2], [3, 4, 5], 4, false⟩

/-- Concrete closed store for the write-through witness. -/
def s9 : StoreState := ⟨fun _ => none, ⟨[], [], [], 100, true⟩⟩

/-- A 9-byte payload whose declared `keyLen` (0xFFFFFFFF) plus `valLen` (1)
wraps to 0 modulo 2^32, defeating the length check: decoding it makes the Go
key-slice expression go out of bounds. -/
def wrapPayload : List Nat := [1, 255, 255, 255, 255, 0, 0, 0, 1]

set_option maxRecDepth 10000

/-- A byte read is below 256. -/
theorem byteAt_lt (l : List Nat) (i : Nat) : byteAt l i < 256 :=
  Nat.mod_lt _ (by decide)

/-- A big-endian uint32 read is below 2^32. -/
theorem u32At_lt (l : List Nat) (i : Nat) : u32At l i < 4294967296 := by
  have h0 := byteAt_lt l i
  have h1 := byteAt_lt l (i + 1)
  have h2 := byteAt_lt l (i + 2)
  have h3 := byteAt_lt l (i + 3)
  unfold u32At
  omega

/-- Reading a byte of a contiguous slice reads the underlying file byte. -/
theorem byteAt_slice (f : List Nat) (a L j : Nat) (h : j < L) :
    byteAt ((f.drop a).take L) j = byteAt f (a + j) := by
  simp [byteAt, List.getD_eq_getElem?_getD, List.getElem?_take_of_lt h, List.getElem?_drop]

/-- Reading a uint32 of a contiguous slice reads the underlying file bytes. -/
theorem u32At_slice (f : List Nat) (a L j : Nat) (h : j + 4 ≤ L) :
    u32At ((f.drop a).take L) j = u32At f (a + j) := by
  unfold u32At
  rw [byteAt_slice f a L j (by omega), byteAt_slice f a L (j + 1) (by omega),
    byteAt_slice f a L (j + 2) (by omega), byteAt_slice f a L (j + 3) (by omega)]
  simp [← Nat.add_assoc]

/-- `decodeRecord` panics only when the declared `keyLen + valLen` wraps
32 bits (and the header was present). -/
theorem decode_boom_wrap (d : List Nat) (h : decodeRecord d = .boom) :
    9 ≤ d.length ∧ 4294967296 ≤ u32At d 1 + u32At d 5 := by
  have hk := u32At_lt d 1
  have hv := u32At_lt d 5
  simp only [decodeRecord] at h
  split_ifs at h with h1 h2 h3 h4
  · exact ⟨by omega, by omega⟩
  · exact ⟨by omega, by omega⟩

/-- The scan loop breaks without truncating exactly when fewer than 4 bytes
remain at the frame start (the magic read fails). -/
theorem parseFrame_eof_iff (file : List Nat) (off : Nat) :
    parseFrame file off = .eof ↔ file.length < off + 4 := by
  unfold parseFrame
  split_ifs with h1 h2 h3 h4 h5
  · simp [h1]
  · simp [h1]
  · simp [h1]
  · simp [h1]
  · simp [h1]
  · simp only [h1, iff_false]
    split
    · simp
    · split <;> simp

/-- A fully-valid frame advances the offset by at least the 12-byte header
and never beyond the end of the file. -/
theorem parseFrame_ok_bound (file : List Nat) (off : Nat) (r : Record) (next : Nat)
    (h : parseFrame file off = .ok r next) : off + 12 ≤ next ∧ next ≤ file.length := by
  simp only [parseFrame] at h
  split_ifs at h with h1 h2 h3 h4 h5 h6
  revert h
  split
  · intro h; injection h with e1 e2; omega
  · intro h; exact absurd h (by simp)
  · intro h; exact absurd h (by simp)

/-- When no position of the file carries wrapping length fields, no frame the
scan inspects can make `decodeRecord` panic. -/
theorem parseFrame_no_boom (f : List Nat) (hNW : NoWrapFrames f) (off : Nat) :
    parseFrame f off ≠ .boom := by
  intro h
  simp only [parseFrame] at h
  split_ifs at h with h1 h2 h3 h4 h5 h6
  revert h
  split
  · intro h; exact absurd h (by simp)
  · intro h; exact absurd h (by simp)
  · intro h
    rename_i hd
    obtain ⟨h9, hwrap⟩ := decode_boom_wrap _ hd
    have hlen : ((f.drop (off + 12)).take (u32At f (off + 4))).length = u32At f (off + 4) := by
      simp only [List.length_take, List.length_drop]
      omega
    have e1 : u32At ((f.drop (off + 12)).take (u32At f (off + 4))) 1 = u32At f (off + 13) := by
      have := u32At_slice f (off + 12) (u32At f (off + 4)) 1 (by omega)
      rwa [show off + 12 + 1 = off + 13 by omega] at this
    have e5 : u32At ((f.drop (off + 12)).take (u32At f (off + 4))) 5 = u32At f (off + 17) := by
      have := u32At_slice f (off + 12) (u32At f (off + 4)) 5 (by omega)
      rwa [show off + 12 + 5 = off + 17 by omega] at this
    rw [e1, e5] at hwrap
    exact absurd (hNW off) (by omega)

/-- Main invariant of the scan loop: from any frame boundary `off` with enough
fuel, the loop consumes a chain of wholly-valid frames up to `stop`, and it
either truncates because a bad-but-magic-readable frame starts exactly at
`stop`, or it stops without truncating because fewer than 4 bytes remain. -/
theorem scanLoop_spec (file : List Nat) :
    ∀ fuel off recs stop trunc, file.length - off < fuel → off ≤ file.length →
      scanLoop file fuel off = .done recs stop trunc →
      off ≤ stop ∧ stop ≤ file.length ∧ GoodChain file off stop recs ∧
      (trunc = true → parseFrame file stop = .bad) ∧
      (trunc = false → file.length < stop + 4) := by
  intro fuel
  induction fuel with
  | zero => intro off recs stop trunc hfu; exact absurd hfu (Nat.not_lt_zero _)
  | succ n ih =>
    intro off recs stop trunc hfu hoff hscan
    simp only [scanLoop] at hscan
    split at hscan
    · rename_i hp
      injection hscan with e1 e2 e3
      subst e1; subst e2; subst e3
      refine ⟨Nat.le_refl _, hoff, GoodChain.refl off, ?_, ?_⟩
      · intro ht; cases ht
      · intro _; exact (parseFrame_eof_iff file off).mp hp
    · rename_i hp
      injection hscan with e1 e2 e3
      subst e1; subst e2; subst e3
      refine ⟨Nat.le_refl _, hoff, GoodChain.refl off, ?_, ?_⟩
      · intro _; exact hp
      · intro ht; cases ht
    · exact absurd hscan (by simp)
    · rename_i r next hp
      split at hscan
      · rename_i recs' stop' trunc' hs
        injection hscan with e1 e2 e3
        subst e1; subst e2; subst e3
        obtain ⟨hb1, hb2⟩ := parseFrame_ok_bound file off r next hp
        obtain ⟨k1, k2, k3, k4, k5⟩ :=
          ih next recs' stop' trunc' (by omega) (by omega) hs
        exact ⟨by omega, k2, GoodChain.step hp k3, k4, k5⟩
      · exact absurd hscan (by simp)

/-- With no wrapping length fields anywhere in the file, the scan loop never
panics. -/
theorem scanLoop_no_boom (f : List Nat) (hNW : NoWrapFrames f) :
    ∀ fuel off, scanLoop f fuel off ≠ .boom := by
  intro fuel
  induction fuel with
  | zero => intro off h; exact absurd h (by simp [scanLoop])
  | succ n ih =>
    intro off h
    simp only [scanLoop] at h
    split at h
    · exact absurd h (by simp)
    · exact absurd h (by simp)
    · rename_i hp; exact parseFrame_no_boom f hNW off hp
    · rename_i r next hp
      split at h
      · exact absurd h (by simp)
      · rename_i hs; exact ih next hs

/-- C1: the claimed round-trip `decode(encode(r)) = r` fails on the code.  For
the valid record `{op = Set, key = "a", value = "1"}` the decoder returns the
value `[0]` — a byte of the keyLen field — because after copying the key the
source sets `offset = int(keyLen)` instead of advancing it, so the value is
copied from `data[keyLen : keyLen+valLen]`.  This contradicts the spec's
round-trip property and the repository's own tests, which expect the value
back unchanged: the code, not the claim, is wrong. -/
theorem decode_break_roundtrip :
    decodeRecord (encodeRecord ⟨1, [97], [49]⟩) ≠ .ok ⟨1, [97], [49]⟩ ∧
    decodeRecord (encodeRecord ⟨1, [97], [49]⟩) = .ok ⟨1, [97], [0]⟩ := by
  decide

/-- C2: recovery equivalence fails on the code.  Committing the single
operation `Set "a" "1"` and replaying it through `Recover` yields a map with
`"a" ↦ [0]` (the mangled value produced by the decode slip of C1), while
applying the operation directly in memory yields `"a" ↦ "1"`.  The
repository's own recovery test expects the original values back: the code,
not the claim, is wrong. -/
theorem recover_divergence :
    recoveredMap [KVOp.set [97] [49]] [97] = some [0] ∧
    directMap [KVOp.set [97] [49]] [97] = some [49] := by
  decide

/-- C7: appending `r1 = {Set, "a", "1"}` then flushing, then `r2 =
{Set, "b", "2"}` then flushing, makes `readAll` return two records in the
same order (keys "a" then "b"), but they are the decode-mangled images, not
`r1` and `r2` themselves: the appended records do not appear in the result,
because of the same decode slip as C1.  Buffering and flushing do preserve
the sequence; the claim fails only at the final decode step, against the
repository's own `TestAppendAndReadAll`. -/
theorem append_order_mangled :
    readAll (segmentsOf (flushOnce (appendOr (flushOnce (appendOr (walOpen 10485760)
        ⟨1, [97], [49]⟩)) ⟨1, [98], [50]⟩)))
      = .ok [⟨1, [97], [0]⟩, ⟨1, [98], [0]⟩] ∧
    (⟨1, [97], [0]⟩ : Record) ≠ ⟨1, [97], [49]⟩ ∧
    (⟨1, [98], [0]⟩ : Record) ≠ ⟨1, [98], [50]⟩ := by
  decide

/-- C3 counterexample: a segment consisting of a 1-byte invalid tail (a torn
frame header) is left completely untouched by the scan — no truncation call
is made — although the claim requires truncation exactly at offset 0, the
start of the bad frame, leaving only fully-valid frames. -/
theorem scan_torn_tail_no_truncate :
    readAllFromFile [1] = .done [] 0 false ∧ fileAfterScan [1] = [1] := by
  decide

/-- C3 (amended): whenever the scan stops at a spot where the 4 magic bytes
are still readable, it truncates exactly at the byte offset `stop` where the
first bad frame starts — never inside a frame — and the bytes before `stop`
are exactly the wholly-valid frames whose records were returned; but when
fewer than 4 bytes remain at the frame start (clean end of file, or a torn
tail of 1-3 bytes) the scan stops without truncating and any torn bytes
remain in place. -/
theorem scan_truncates_at_bad_frame_start (file : List Nat) (recs : List Record)
    (stop : Nat) (trunc : Bool) (h : readAllFromFile file = .done recs stop trunc) :
    stop ≤ file.length ∧ GoodChain file 0 stop recs ∧
    (trunc = true → fileAfterScan file = file.take stop ∧ parseFrame file stop = .bad) ∧
    (trunc = false → fileAfterScan file = file ∧ file.length < stop + 4) := by
  obtain ⟨h1, h2, h3, h4, h5⟩ :=
    scanLoop_spec file (file.length + 1) 0 recs stop trunc (by omega) (by omega) h
  refine ⟨h2, h3, ?_, ?_⟩
  · intro ht
    subst ht
    exact ⟨by simp [fileAfterScan, h], h4 rfl⟩
  · intro ht
    subst ht
    exact ⟨by simp [fileAfterScan, h], h5 rfl⟩

/-- C3 witness: a segment holding only the 4 magic bytes (readable magic,
torn length field) is truncated exactly at offset 0. -/
theorem scan_truncate_witness :
    (0 : Nat) ≤ (be32 recordMagic).length ∧ GoodChain (be32 recordMagic) 0 0 [] ∧
    (true = true → fileAfterScan (be32 recordMagic) = (be32 recordMagic).take 0 ∧
      parseFrame (be32 recordMagic) 0 = .bad) ∧
    (true = false → fileAfterScan (be32 recordMagic) = be32 recordMagic ∧
      (be32 recordMagic).length < 0 + 4) :=
  scan_truncates_at_bad_frame_start (be32 recordMagic) [] 0 true (by decide)

/-- C4 counterexample: a first segment holding only the 4 magic bytes is
truncated (trunc = true), yet `ReadAll` still scans the following segment and
returns its record — the result does contain a record from a segment that
follows a truncated one, contrary to the claim. -/
theorem readall_later_segment_after_truncate :
    readAllFromFile (be32 recordMagic) = .done [] 0 true ∧
    readAll [be32 recordMagic, frameFor (encodeRecord ⟨1, [], []⟩)]
      = .ok [⟨1, [], []⟩] := by
  decide

/-- C4 (amended): `ReadAll` scans every listed segment unconditionally; a
truncation only stops the scan of its own segment, and the records of all
later segments are still scanned and appended to the result. -/
theorem readall_scans_all_segments (f : List Nat) (rest : List (List Nat))
    (recs : List Record) (stop : Nat) (trunc : Bool) (more : List Record)
    (h1 : readAllFromFile f = .done recs stop trunc) (h2 : readAll rest = .ok more) :
    readAll (f :: rest) = .ok (recs ++ more) := by
  simp [readAll, h1, h2]

/-- C4 witness: the amended statement at the counterexample's two segments,
with the truncating first segment (trunc = true) followed by a valid one. -/
theorem readall_scans_all_segments_witness :
    readAll [be32 recordMagic, frameFor (encodeRecord ⟨1, [], []⟩)]
      = .ok ([] ++ [⟨1, [], []⟩]) :=
  readall_scans_all_segments (be32 recordMagic)
    [frameFor (encodeRecord ⟨1, [], []⟩)] [] 0 true [⟨1, [], []⟩]
    (by decide) (by decide)

/-- C5 counterexample: a segment holding one frame with correct magic, length
and checksum whose payload declares wrapping lengths makes the scan hit the
decode out-of-bounds panic: `ReadAll` neither returns the records scanned
before the corruption nor truncates — it crashes. -/
theorem readall_decode_wrap_boom :
    decodeRecord wrapPayload = .boom ∧
    readAll [frameFor wrapPayload] = .boom := by
  decide

/-- C5 (amended): for every list of segment contents in which no position
carries payload length fields whose true sum wraps 32 bits (the decode panic
case of C10), `ReadAll` always returns a record list — corruption of any
kind is resolved by truncation and stopping, never surfaced as an error. -/
theorem readall_no_error_result (segs : List (List Nat))
    (h : ∀ f ∈ segs, NoWrapFrames f) :
    ∃ recs, readAll segs = .ok recs := by
  induction segs with
  | nil => exact ⟨[], rfl⟩
  | cons f rest ih =>
    obtain ⟨more, hm⟩ := ih (fun g hg => h g (by simp [hg]))
    cases hsc : readAllFromFile f with
    | boom => exact absurd hsc (scanLoop_no_boom f (h f (by simp)) _ _)
    | done recs stop trunc => exact ⟨recs ++ more, by simp [readAll, hsc, hm]⟩

/-- C5 witness: the amended statement applied to a single empty segment. -/
theorem readall_no_error_result_witness : ∃ recs, readAll [[]] = .ok recs :=
  readall_no_error_result [[]] (by
    intro f hf
    simp only [List.mem_singleton] at hf
    subst hf
    intro i
    simp [u32At, byteAt])

/-- C6 counterexample: `decodeRecord` accepts the unrecognized op byte 7 and
returns it unchanged, although the claim requires a DecodingError for any op
byte that is neither Set (1) nor Delete (2). -/
theorem decode_accepts_unknown_op :
    decodeRecord [7, 0, 0, 0, 0, 0, 0, 0, 0] = .ok ⟨7, [], []⟩ := by
  decide

/-- C6 (amended): `decodeRecord` returns an error exactly when the input is
shorter than the 9-byte header or the declared `keyLen + valLen`, reduced
modulo 2^32, does not equal the remaining byte count; the op byte is never
inspected — any value is accepted and stored; and when the true sum wraps
32 bits while matching modulo 2^32 the function panics instead of erroring. -/
theorem decode_failure_iff (data : List Nat) :
    (decodeRecord data = .err ↔
      data.length < 9 ∨ 9 + (u32At data 1 + u32At data 5) % 4294967296 ≠ data.length) ∧
    (∀ r, decodeRecord data = .ok r → r.op = byteAt data 0) ∧
    (decodeRecord data = .boom ↔
      9 + (u32At data 1 + u32At data 5) % 4294967296 = data.length ∧
        4294967296 ≤ u32At data 1 + u32At data 5) := by
  have hk := u32At_lt data 1
  have hv := u32At_lt data 5
  simp only [decodeRecord]
  split_ifs with h1 h2 h3 h4
  · refine ⟨by simp; omega, ?_, by simp; omega⟩
    intro r h; exact absurd h (by simp)
  · refine ⟨by simp; omega, ?_, by simp; omega⟩
    intro r h; exact absurd h (by simp)
  · refine ⟨by simp; omega, ?_, by simp; omega⟩
    intro r h; exact absurd h (by simp)
  · refine ⟨by simp; omega, ?_, by simp; omega⟩
    intro r h; exact absurd h (by simp)
  · refine ⟨by simp; omega, ?_, by simp; omega⟩
    intro r h
    injection h with e
    rw [← e]

/-- C6 witness: the op-byte clause of the characterization applied at the
unknown-op input, whose decode succeeds. -/
theorem decode_failure_iff_witness :
    (⟨7, [], []⟩ : Record).op = byteAt [7, 0, 0, 0, 0, 0, 0, 0, 0] 0 :=
  (decode_failure_iff [7, 0, 0, 0, 0, 0, 0, 0, 0]).2.1 ⟨7, [], []⟩ (by decide)

/-- C8: a flush of an empty buffer leaves the state unchanged; a flush of a
non-empty buffer always clears the buffer, appends the whole buffer
contiguously at the end of the log's byte stream (a single segment — never
split across two), and rotates exactly when the pre-flush size of the active
segment plus the whole pending buffer exceeds the configured maximum,
writing the entire buffer into the fresh segment in that case and into the
existing active segment otherwise. -/
theorem flush_rotation_spec (w : WalState) :
    flushOnce { w with buffer := [] } = { w with buffer := [] } ∧
    (w.buffer ≠ [] →
      (flushOnce w).buffer = [] ∧
      ((flushOnce w).sealed ++ [(flushOnce w).active]).flatten
        = (w.sealed ++ [w.active]).flatten ++ w.buffer ∧
      (if w.maxSize < w.active.length + w.buffer.length
        then (flushOnce w).sealed = w.sealed ++ [w.active] ∧ (flushOnce w).active = w.buffer
        else (flushOnce w).sealed = w.sealed ∧ (flushOnce w).active = w.active ++ w.buffer)) := by
  constructor
  · simp [flushOnce]
  · intro hb
    unfold flushOnce
    rw [if_neg hb]
    split_ifs with h2
    · exact ⟨rfl, by simp, rfl, rfl⟩
    · exact ⟨rfl, by simp, rfl, rfl⟩

/-- C8 witness: the non-empty-buffer part of the statement at a concrete
state whose buffer pushes the active segment over the budget. -/
theorem flush_rotation_witness :
    (flushOnce w8).buffer = [] ∧
    ((flushOnce w8).sealed ++ [(flushOnce w8).active]).flatten
      = (w8.sealed ++ [w8.active]).flatten ++ w8.buffer ∧
    (if w8.maxSize < w8.active.length + w8.buffer.length
      then (flushOnce w8).sealed = w8.sealed ++ [w8.active] ∧ (flushOnce w8).active = w8.buffer
      else (flushOnce w8).sealed = w8.sealed ∧ (flushOnce w8).active = w8.active ++ w8.buffer) :=
  (flush_rotation_spec w8).2 (by decide)

/-- C9: when the WAL handle is closed, `Store.Set` propagates the append
error and returns the store — in particular its in-memory map — completely
unchanged: the map is mutated only after the append has been accepted. -/
theorem set_append_fail_map_unchanged (s : StoreState) (k v : List Nat)
    (h : s.wal.closed = true) :
    (storeSet s k v).1 = some "wal is closed" ∧ (storeSet s k v).2 = s := by
  simp [storeSet, walAppend, h]

/-- C9 witness: the statement at a concrete closed store. -/
theorem set_append_fail_witness :
    (storeSet s9 [1] [2]).1 = some "wal is closed" ∧ (storeSet s9 [1] [2]).2 = s9 :=
  set_append_fail_map_unchanged s9 [1] [2] rfl

/-- C10 counterexample: for the 9-byte input declaring `keyLen = 0xFFFFFFFF`
and `valLen = 1`, the wrapped length check passes and the key slice
expression `data[9 : 9+keyLen]` is out of bounds — `decodeRecord` panics
rather than returning a record or an error. -/
theorem decode_wrap_out_of_bounds : decodeRecord wrapPayload = .boom := by
  decide

/-- C10 (amended): for every input whose declared `keyLen + valLen` does not
wrap 32 bits, `decodeRecord` returns a record or an error and performs no
out-of-bounds access; the wrap case is exactly where the guard fails. -/
theorem decode_no_oob_without_wrap (data : List Nat)
    (h : u32At data 1 + u32At data 5 < 4294967296) :
    decodeRecord data = .err ∨ ∃ r, decodeRecord data = .ok r := by
  have hk := u32At_lt data 1
  have hv := u32At_lt data 5
  simp only [decodeRecord]
  split_ifs with h1 h2 h3 h4
  · exact Or.inl rfl
  · exact Or.inl rfl
  · exact absurd h3 (by omega)
  · exact absurd h4 (by omega)
  · exact Or.inr ⟨_, rfl⟩

/-- C10 witness: the amended statement at a 9-byte input with zero lengths. -/
theorem decode_no_oob_witness :
    decodeRecord [1, 0, 0, 0, 0, 0, 0, 0, 0] = .err ∨
      ∃ r, decodeRecord [1, 0, 0, 0, 0, 0, 0, 0, 0] = .ok r :=
  decode_no_oob_without_wrap [1, 0, 0, 0, 0, 0, 0, 0, 0] (by decide)
